import Mathlib

/-!
Verification of the forge-vapor arcade game core.

This file gives a shallow embedding of the per-frame `update` loop of the
game (`src/unnamed/part_000`, the enriched variant with bullets, good/bad
bars, levels and a win score; `src/game/script.js` is an earlier baseline
whose player clamp, miss handling and spawner are textually identical
fragments of the enriched one), together with the leaderboard operations,
and proves the specification claims about them.

Numeric values (JS numbers) are modelled as rationals `ℚ` for coordinates,
speeds and times, and as integers `ℤ` for score, lives and level, which the
program only ever changes by integer steps.  Randomness (`Math.random`) is
modelled by passing the sampled values in `[0,1)` as explicit arguments.
Purely visual entities (particles, floating texts, the instruction banner)
read and write no game-relevant state in the source and are omitted.
-/

namespace ForgeVapor

/-- `PLAYER_SPEED` of the enriched variant. -/
def playerSpeed : ℚ := 8

/-- `BULLET_SPEED`. -/
def bulletSpeed : ℚ := 10

/-- `BAR_WIDTH`. -/
def barWidth : ℚ := 50

/-- `BAR_HEIGHT`. -/
def barHeight : ℚ := 20

/-- `BAD_BAR_PROBABILITY`. -/
def badBarProbability : ℚ := 1 / 5

/-- `WIN_SCORE`. -/
def winScore : ℤ := 20

/-- `BAR_SPAWN_INTERVAL` (base spawn interval, ms). -/
def barSpawnInterval : ℚ := 1000

/-- Session status: `gameRunning` together with which of `endGame` /
`winGame` ended the session. -/
inductive Status where
  | running : Status
  | lost : Status
  | won : Status
deriving DecidableEq, Repr

/-- A falling bar (`bars` array elements created by `spawnBar`). -/
structure Bar where
  x : ℚ
  y : ℚ
  width : ℚ
  height : ℚ
  speed : ℚ
  isBad : Bool
deriving DecidableEq, Repr

/-- A phpstan bullet (`bullets` array elements created by `shootBullet`). -/
structure Bullet where
  x : ℚ
  y : ℚ
  width : ℚ
  height : ℚ
deriving DecidableEq, Repr

/-- The player sprite. -/
structure Player where
  x : ℚ
  y : ℚ
  width : ℚ
  height : ℚ
deriving DecidableEq, Repr

/-- The mutable game state touched by `update`. -/
structure GameState where
  score : ℤ
  timeLeft : ℚ
  lives : ℤ
  bars : List Bar
  bullets : List Bullet
  lastSpawn : ℚ
  level : ℤ
  currentSpawnInterval : ℚ
  player : Player
  status : Status
deriving DecidableEq, Repr

/-- The two clamping conditionals keeping the player inside the canvas
(`if (player.x < 0) ...; if (player.x + player.width > canvas.width) ...`),
shared verbatim by `update` and the `mousemove` handler. -/
def clampX (W w x : ℚ) : ℚ :=
  if W < (if x < 0 then 0 else x) + w then W - w
  else if x < 0 then 0 else x

/-- Keyboard movement plus clamping at the start of `update`. -/
def movePlayer (W : ℚ) (keyLeft keyRight : Bool) (p : Player) : Player :=
  { p with
    x := clampX W p.width
      (p.x - (if keyLeft then playerSpeed else 0)
           + (if keyRight then playerSpeed else 0)) }

/-- The `mousemove` handler: centre the player under the cursor, then clamp
within canvas bounds. -/
def mouseMove (W mouseX : ℚ) (p : Player) : Player :=
  { p with x := clampX W p.width (mouseX - p.width / 2) }

/-- `bar.y += bar.speed` at the top of the bar loop. -/
def fallBar (bar : Bar) : Bar :=
  { bar with y := bar.y + bar.speed }

/-- The player/bar AABB overlap test of `update`. -/
def overlapsPlayer (bar : Bar) (p : Player) : Bool :=
  decide (bar.x < p.x + p.width) && decide (bar.x + bar.width > p.x) &&
  decide (bar.y < p.y + p.height) && decide (bar.y + bar.height > p.y)

/-- The recomputed spawn interval
`Math.max(300, BAR_SPAWN_INTERVAL - (level - 1) * 100)`. -/
def spawnIntervalFor (lvl : ℤ) : ℚ :=
  max 300 (barSpawnInterval - ((lvl : ℚ) - 1) * 100)

/-- One iteration of the bar loop body of `update` for the bar at the
current index: move the bar, then either catch it (good or bad), miss it
off the bottom, or keep it.  Returns the surviving bar (if any) and the
updated scalar state. -/
def barStep (H : ℚ) (p : Player) (s : GameState) (bar : Bar) :
    Option Bar × GameState :=
  if overlapsPlayer (fallBar bar) p then
    if bar.isBad then
      if s.lives - 1 ≤ 0 then
        (none, { s with lives := s.lives - 1, status := Status.lost })
      else (none, { s with lives := s.lives - 1 })
    else
      if winScore ≤ s.score + 1 then
        (none, { s with score := s.score + 1, status := Status.won })
      else if (s.score + 1) % 5 = 0 then
        (none, { s with score := s.score + 1, level := s.level + 1,
                        currentSpawnInterval := spawnIntervalFor (s.level + 1) })
      else (none, { s with score := s.score + 1 })
  else if (fallBar bar).y > H then
    if s.lives - 1 ≤ 0 then
      (none, { s with lives := s.lives - 1, status := Status.lost })
    else (none, { s with lives := s.lives - 1 })
  else (some (fallBar bar), s)

/-- The bar loop `for (let i = bars.length - 1; i >= 0; i--)`.  The input
list is the `bars` array in reverse index order (head = highest index), so
head-first recursion processes exactly the source loop's order; an
`endGame` / `winGame` `return` leaves the lower-indexed bars unprocessed. -/
def runBars (H : ℚ) (p : Player) : List Bar → GameState → List Bar × GameState
  | [], s => ([], s)
  | bar :: lower, s =>
    if (barStep H p s bar).2.status = Status.running then
      ((barStep H p s bar).1.toList ++ (runBars H p lower (barStep H p s bar).2).1,
        (runBars H p lower (barStep H p s bar).2).2)
    else
      ((barStep H p s bar).1.toList ++ lower, (barStep H p s bar).2)

/-- `bullet.y -= BULLET_SPEED`. -/
def moveBullet (b : Bullet) : Bullet :=
  { b with y := b.y - bulletSpeed }

/-- The bullet/bar AABB overlap test of `update`. -/
def bulletHits (b : Bullet) (bar : Bar) : Bool :=
  decide (b.x < bar.x + bar.width) && decide (b.x + b.width > bar.x) &&
  decide (b.y < bar.y + bar.height) && decide (b.y + b.height > bar.y)

/-- The inner bar scan of the bullet loop: walk the bars in reverse index
order (the list is already reversed) and remove the first overlapping bar,
as `bars.splice(i, 1)` followed by `break` does. -/
def hitScanRev (b : Bullet) : List Bar → Option (Bar × List Bar)
  | [] => none
  | bar :: rest =>
    if bulletHits b bar then some (bar, rest)
    else
      match hitScanRev b rest with
      | none => none
      | some (hit, rest') => some (hit, bar :: rest')

/-- One iteration of the bullet loop body: move the bullet, drop it if it
left the top of the screen, otherwise test it against every remaining bar
in reverse index order; a hit removes both, and a bad bar grants a life. -/
def bulletStep (s : GameState) (barsRev : List Bar) (bullet : Bullet) :
    Option Bullet × List Bar × GameState :=
  if (moveBullet bullet).y + (moveBullet bullet).height < 0 then (none, barsRev, s)
  else
    match hitScanRev (moveBullet bullet) barsRev with
    | none => (some (moveBullet bullet), barsRev, s)
    | some (bar, barsRev') =>
      (none, barsRev', if bar.isBad then { s with lives := s.lives + 1 } else s)

/-- The bullet loop `for (let bi = bullets.length - 1; bi >= 0; bi--)`,
with bullets in reverse index order; the bar store is threaded through. -/
def runBullets : List Bullet → List Bar → GameState →
    List Bullet × List Bar × GameState
  | [], barsRev, s => ([], barsRev, s)
  | bullet :: lower, barsRev, s =>
    ((bulletStep s barsRev bullet).1.toList ++
        (runBullets lower (bulletStep s barsRev bullet).2.1
          (bulletStep s barsRev bullet).2.2).1,
      (runBullets lower (bulletStep s barsRev bullet).2.1
        (bulletStep s barsRev bullet).2.2).2.1,
      (runBullets lower (bulletStep s barsRev bullet).2.1
        (bulletStep s barsRev bullet).2.2).2.2)

/-- `spawnBar()`: a new bar at a random x, with speed growing with score
(capped) and a Bernoulli bad flag.  `randX` and `randBad` are the two
`Math.random()` samples. -/
def spawnBar (W : ℚ) (score : ℤ) (randX randBad : ℚ) : Bar :=
  { x := randX * (W - barWidth)
    y := -barHeight
    width := barWidth
    height := barHeight
    speed := 2 + min ((score : ℚ) * (1 / 10)) 5
    isBad := decide (randBad < badBarProbability) }

/-- The spawn trigger `lastSpawn >= currentSpawnInterval` after
`lastSpawn += delta`. -/
def spawnDue (delta : ℚ) (s : GameState) : Bool :=
  decide (s.currentSpawnInterval ≤ s.lastSpawn + delta)

/-- The bar store after the spawn phase of a tick. -/
def preBars (W randX randBad delta : ℚ) (s : GameState) : List Bar :=
  if spawnDue delta s then s.bars ++ [spawnBar W s.score randX randBad]
  else s.bars

/-- The spawn accumulator after the spawn phase of a tick. -/
def preLastSpawn (delta : ℚ) (s : GameState) : ℚ :=
  if spawnDue delta s then 0 else s.lastSpawn + delta

/-- Player movement, spawning and the whole bar loop of one tick. -/
def barPhase (W H : ℚ) (keyL keyR : Bool) (randX randBad delta : ℚ)
    (s : GameState) : List Bar × GameState :=
  runBars H (movePlayer W keyL keyR s.player)
    (preBars W randX randBad delta s).reverse
    { s with player := movePlayer W keyL keyR s.player
             lastSpawn := preLastSpawn delta s }

/-- The bullet loop applied to the bar phase's result, with the two entity
stores put back into index order. -/
def bulletPhase (bp : List Bar × GameState) : GameState :=
  { (runBullets bp.2.bullets.reverse bp.1 bp.2).2.2 with
    bars := (runBullets bp.2.bullets.reverse bp.1 bp.2).2.1.reverse
    bullets := (runBullets bp.2.bullets.reverse bp.1 bp.2).1.reverse }

/-- The countdown at the end of `update`:
`timeLeft -= delta / 1000; if (timeLeft <= 0) { timeLeft = 0; endGame(); }`. -/
def timePhase (delta : ℚ) (s : GameState) : GameState :=
  if s.timeLeft - delta / 1000 ≤ 0 then
    { s with timeLeft := 0, status := Status.lost }
  else { s with timeLeft := s.timeLeft - delta / 1000 }

/-- The whole `update(delta)` step: player movement, spawning, the bar
loop (whose `endGame`/`winGame` `return` skips everything after it), the
bullet loop, and finally the countdown timer. -/
def update (W H : ℚ) (keyL keyR : Bool) (randX randBad delta : ℚ)
    (s : GameState) : GameState :=
  if (barPhase W H keyL keyR randX randBad delta s).2.status = Status.running then
    timePhase delta (bulletPhase (barPhase W H keyL keyR randX randBad delta s))
  else
    { (barPhase W H keyL keyR randX randBad delta s).2 with
      bars := (barPhase W H keyL keyR randX randBad delta s).1.reverse }

/-- A leaderboard record `{ name, score }`.  The name is modelled as its
character sequence. -/
structure Entry where
  name : List Char
  score : ℤ
deriving DecidableEq, Repr

/-- The descending-by-score order used by the comparator
`(a, b) => b.score - a.score`. -/
def scoreGE (a b : Entry) : Prop := b.score ≤ a.score

instance : DecidableRel scoreGE := fun a b =>
  inferInstanceAs (Decidable (b.score ≤ a.score))

instance : IsTotal Entry scoreGE := ⟨fun a b => le_total b.score a.score⟩

instance : IsTrans Entry scoreGE := ⟨fun _ _ _ h1 h2 => le_trans h2 h1⟩

/-- `updateHighScores(newScore, playerName)`: push the new entry, sort the
list descending by score, and keep only the top 5. -/
def updateHighScores (e : Entry) (hs : List Entry) : List Entry :=
  if 5 < (List.insertionSort scoreGE (hs ++ [e])).length then
    (List.insertionSort scoreGE (hs ++ [e])).take 5
  else List.insertionSort scoreGE (hs ++ [e])

/-! ### The persisted storage format

The leaderboard is persisted as the `JSON.stringify` text of the record
array and read back with `JSON.parse` inside a `try`/`catch` that falls
back to `[]`.  `JSON.parse` / `JSON.stringify` are host functions, not
repository code; the parser below is modelled from the spec: it accepts
exactly the storage format the spec describes ("an ordered sequence of
`{name: string, score: integer}` records serialized as text"), i.e. the
texts `JSON.stringify` produces for such record arrays (names needing no
escape sequences, non-negative integer scores), and fails on anything
else.  Texts are modelled as character lists. -/

/-- The left brace character (written via its code point). -/
def lbrace : Char := Char.ofNat 123

/-- The right brace character (written via its code point). -/
def rbrace : Char := Char.ofNat 125

/-- Decimal digit character for a digit value. -/
def dChar : ℕ → Char
  | 0 => '0'
  | 1 => '1'
  | 2 => '2'
  | 3 => '3'
  | 4 => '4'
  | 5 => '5'
  | 6 => '6'
  | 7 => '7'
  | 8 => '8'
  | 9 => '9'
  | _ => '0'

/-- Is this character a decimal digit? -/
def isDig (c : Char) : Bool :=
  c == '0' || c == '1' || c == '2' || c == '3' || c == '4' ||
  c == '5' || c == '6' || c == '7' || c == '8' || c == '9'

/-- Digit value of a decimal digit character. -/
def dVal (c : Char) : ℕ :=
  if c == '1' then 1 else if c == '2' then 2 else if c == '3' then 3
  else if c == '4' then 4 else if c == '5' then 5 else if c == '6' then 6
  else if c == '7' then 7 else if c == '8' then 8 else if c == '9' then 9
  else 0

/-- Decimal rendering of a natural number (big-endian), fuelled for
structural recursion. -/
def natCharsAux : ℕ → ℕ → List Char
  | 0, _ => []
  | fuel + 1, n =>
    if n < 10 then [dChar n]
    else natCharsAux fuel (n / 10) ++ [dChar (n % 10)]

/-- Decimal rendering of a natural number, as `JSON.stringify` prints the
integer scores. -/
def natChars (n : ℕ) : List Char :=
  natCharsAux (n + 1) n

/-- Split off the leading run of decimal digits. -/
def takeDigits : List Char → List Char × List Char
  | [] => ([], [])
  | c :: rest =>
    if isDig c then (c :: (takeDigits rest).1, (takeDigits rest).2)
    else ([], c :: rest)

/-- Value of a big-endian digit-character list. -/
def digitsVal (ds : List Char) : ℕ :=
  ds.foldl (fun acc c => acc * 10 + dVal c) 0

/-- Parse a decimal natural number (at least one digit). -/
def parseNum (cs : List Char) : Option (ℕ × List Char) :=
  if (takeDigits cs).1 = [] then none
  else some (digitsVal (takeDigits cs).1, (takeDigits cs).2)

/-- Scan a string body up to its closing quote.  Escape sequences do not
occur in the storage format and are rejected. -/
def scanName : List Char → Option (List Char × List Char)
  | [] => none
  | c :: rest =>
    if c == '"' then some ([], rest)
    else if c == '\\' then none
    else
      match scanName rest with
      | none => none
      | some (nm, r) => some (c :: nm, r)

/-- Consume an expected literal character sequence. -/
def expectChars : List Char → List Char → Option (List Char)
  | [], cs => some cs
  | _ :: _, [] => none
  | p :: ps, c :: cs => if p == c then expectChars ps cs else none

/-- The literal up to and including the opening quote of the name value. -/
def namePat : List Char :=
  [lbrace, '"', 'n', 'a', 'm', 'e', '"', ':', '"']

/-- The literal between the name value's closing quote and the score. -/
def scorePat : List Char :=
  [',', '"', 's', 'c', 'o', 'r', 'e', '"', ':']

/-- Parse one serialized record. -/
def parseRecord (cs : List Char) : Option (Entry × List Char) :=
  match expectChars namePat cs with
  | none => none
  | some cs1 =>
    match scanName cs1 with
    | none => none
    | some (nm, cs2) =>
      match expectChars scorePat cs2 with
      | none => none
      | some cs3 =>
        match parseNum cs3 with
        | none => none
        | some (n, cs4) =>
          match cs4 with
          | [] => none
          | c :: cs5 =>
            if c == rbrace then some ({ name := nm, score := (n : ℤ) }, cs5)
            else none

/-- Parse a nonempty comma-separated record sequence up to the closing
bracket.  The fuel argument bounds the recursion; callers pass more fuel
than there can be records. -/
def parseItems : ℕ → List Char → Option (List Entry × List Char)
  | 0, _ => none
  | fuel + 1, cs =>
    match parseRecord cs with
    | none => none
    | some (e, rest) =>
      match rest with
      | [] => none
      | c :: rest2 =>
        if c = ',' then
          match parseItems fuel rest2 with
          | none => none
          | some (es, rest3) => some (e :: es, rest3)
        else if c = ']' then some ([e], rest2)
        else none

/-- Deserialize a stored leaderboard text. -/
def parseScores (cs : List Char) : Option (List Entry) :=
  match cs with
  | [] => none
  | c :: rest =>
    if c = '[' then
      if rest = [']'] then some []
      else
        match parseItems (rest.length + 1) rest with
        | none => none
        | some (es, rem) => if rem = [] then some es else none
    else none

/-- Serialize one record, as `JSON.stringify` does. -/
def encodeRecord (e : Entry) : List Char :=
  namePat ++ e.name ++ '"' :: (scorePat ++ (natChars e.score.toNat ++ [rbrace]))

/-- Serialize the records, comma separated. -/
def encodeItems : List Entry → List Char
  | [] => []
  | [e] => encodeRecord e
  | e :: es => encodeRecord e ++ ',' :: encodeItems es

/-- Serialize a leaderboard, as `JSON.stringify` does. -/
def encodeScores (l : List Entry) : List Char :=
  '[' :: (encodeItems l ++ [']'])

/-- A record the storage format can represent: a name needing no escape
sequences and a non-negative integer score. -/
def goodEntry (e : Entry) : Bool :=
  e.name.all (fun c => !(c == '"') && !(c == '\\')) && decide (0 ≤ e.score)

/-- The load-time `try`/`catch` around `localStorage.getItem` and
`JSON.parse`: start from `[]`, use the parsed value when there is stored
text and parsing succeeds, and fall back to `[]` when parsing throws. -/
def loadHighScores (stored : Option (List Char)) : List Entry :=
  match stored with
  | none => []
  | some s =>
    match parseScores s with
    | none => []
    | some l => l

/-! ### Concrete sample data for witnesses and counterexamples -/

/-- A player centred low on an 800×600 canvas (`y = 600 - 112 - 20`). -/
def samplePlayer : Player := { x := 0, y := 468, width := 90, height := 112 }

/-- A good bar that will overlap `samplePlayer` after falling once. -/
def sampleGoodBar : Bar :=
  { x := 0, y := 460, width := 50, height := 20, speed := 4, isBad := false }

/-- A bad bar at the same position. -/
def sampleBadBar : Bar :=
  { x := 0, y := 460, width := 50, height := 20, speed := 4, isBad := true }

/-- A bar about to leave the bottom of a 600-high field, away from the
player. -/
def sampleMissBar : Bar :=
  { x := 700, y := 590, width := 50, height := 20, speed := 20, isBad := true }

/-- A bullet about to hit `sampleHitBar`. -/
def sampleBullet : Bullet := { x := 10, y := 300, width := 15, height := 15 }

/-- A bad bar in the path of `sampleBullet`. -/
def sampleHitBar : Bar :=
  { x := 0, y := 280, width := 50, height := 20, speed := 3, isBad := true }

/-- A running state on the brink of both terminal transitions: one more
good catch wins, one more life lost loses.  Its store holds a bad bar at
index 0 and a good bar at index 1, both overlapping the player. -/
def brinkState : GameState :=
  { score := 19, timeLeft := 30, lives := 1, bars := [sampleBadBar, sampleGoodBar],
    bullets := [], lastSpawn := 0, level := 4, currentSpawnInterval := 700,
    player := samplePlayer, status := Status.running }

/-- A running state four points into level 1. -/
def earlyState : GameState :=
  { score := 4, timeLeft := 50, lives := 3, bars := [], bullets := [],
    lastSpawn := 0, level := 1, currentSpawnInterval := 1000,
    player := samplePlayer, status := Status.running }

/-! ### Helper lemmas -/

theorem won_ne_running : (Status.won = Status.running) = False := by
  simp only [eq_iff_iff, iff_false]
  intro h
  exact Status.noConfusion h

theorem lost_ne_running : (Status.lost = Status.running) = False := by
  simp only [eq_iff_iff, iff_false]
  intro h
  exact Status.noConfusion h

theorem running_eq_running : (Status.running = Status.running) = True := by
  simp only [eq_iff_iff, iff_true]

theorem fallBar_isBad (bar : Bar) : (fallBar bar).isBad = bar.isBad := rfl

theorem fallBar_y (bar : Bar) : (fallBar bar).y = bar.y + bar.speed := rfl

/-- `barStep` never touches the player, the timer, the bullet store or the
spawn accumulator, and never decreases the level. -/
theorem barStep_pres (H : ℚ) (p : Player) (s : GameState) (bar : Bar) :
    (barStep H p s bar).2.player = s.player ∧
    (barStep H p s bar).2.timeLeft = s.timeLeft ∧
    (barStep H p s bar).2.bullets = s.bullets ∧
    (barStep H p s bar).2.lastSpawn = s.lastSpawn ∧
    s.level ≤ (barStep H p s bar).2.level := by
  unfold barStep
  split_ifs <;> simp [Int.le_add_one]

/-- `runBars` never touches the player, the timer, the bullet store or the
spawn accumulator, and never decreases the level. -/
theorem runBars_pres (H : ℚ) (p : Player) :
    ∀ (l : List Bar) (s : GameState),
      (runBars H p l s).2.player = s.player ∧
      (runBars H p l s).2.timeLeft = s.timeLeft ∧
      (runBars H p l s).2.bullets = s.bullets ∧
      (runBars H p l s).2.lastSpawn = s.lastSpawn ∧
      s.level ≤ (runBars H p l s).2.level
  | [], s => by simp [runBars]
  | bar :: lower, s => by
    have hb := barStep_pres H p s bar
    have ih := runBars_pres H p lower (barStep H p s bar).2
    unfold runBars
    split_ifs with h
    · exact ⟨ih.1.trans hb.1, ih.2.1.trans hb.2.1, ih.2.2.1.trans hb.2.2.1,
        ih.2.2.2.1.trans hb.2.2.2.1, hb.2.2.2.2.trans ih.2.2.2.2⟩
    · exact hb

/-- `bulletStep` changes at most the lives and the bar store: status,
score, level, player, timer, spawn accumulator and the `bullets` field are
untouched. -/
theorem bulletStep_pres (s : GameState) (barsRev : List Bar) (bullet : Bullet) :
    (bulletStep s barsRev bullet).2.2.status = s.status ∧
    (bulletStep s barsRev bullet).2.2.score = s.score ∧
    (bulletStep s barsRev bullet).2.2.level = s.level ∧
    (bulletStep s barsRev bullet).2.2.player = s.player ∧
    (bulletStep s barsRev bullet).2.2.timeLeft = s.timeLeft ∧
    (bulletStep s barsRev bullet).2.2.lastSpawn = s.lastSpawn ∧
    (bulletStep s barsRev bullet).2.2.bullets = s.bullets ∧
    (bulletStep s barsRev bullet).2.2.currentSpawnInterval = s.currentSpawnInterval := by
  unfold bulletStep
  split_ifs with h
  · simp
  · rcases hh : hitScanRev (moveBullet bullet) barsRev with _ | ⟨bar, rest⟩
    · simp [hh]
    · simp only [hh]
      split_ifs <;> simp

/-- `runBullets` changes at most the lives and the bar store. -/
theorem runBullets_pres :
    ∀ (l : List Bullet) (barsRev : List Bar) (s : GameState),
      (runBullets l barsRev s).2.2.status = s.status ∧
      (runBullets l barsRev s).2.2.score = s.score ∧
      (runBullets l barsRev s).2.2.level = s.level ∧
      (runBullets l barsRev s).2.2.player = s.player ∧
      (runBullets l barsRev s).2.2.timeLeft = s.timeLeft ∧
      (runBullets l barsRev s).2.2.lastSpawn = s.lastSpawn ∧
      (runBullets l barsRev s).2.2.bullets = s.bullets ∧
      (runBullets l barsRev s).2.2.currentSpawnInterval = s.currentSpawnInterval
  | [], barsRev, s => by simp [runBullets]
  | bullet :: lower, barsRev, s => by
    have hb := bulletStep_pres s barsRev bullet
    have ih := runBullets_pres lower (bulletStep s barsRev bullet).2.1
      (bulletStep s barsRev bullet).2.2
    unfold runBullets
    exact ⟨ih.1.trans hb.1, ih.2.1.trans hb.2.1, ih.2.2.1.trans hb.2.2.1,
      ih.2.2.2.1.trans hb.2.2.2.1, ih.2.2.2.2.1.trans hb.2.2.2.2.1,
      ih.2.2.2.2.2.1.trans hb.2.2.2.2.2.1,
      ih.2.2.2.2.2.2.1.trans hb.2.2.2.2.2.2.1,
      ih.2.2.2.2.2.2.2.trans hb.2.2.2.2.2.2.2⟩

/-- A successful bar scan returns an overlapping bar, and removes exactly
that bar: the scanned store is a permutation of the hit bar put back in
front of the remainder. -/
theorem hitScanRev_spec (b : Bullet) :
    ∀ (l : List Bar) (bar : Bar) (rest : List Bar),
      hitScanRev b l = some (bar, rest) →
      bulletHits b bar = true ∧ l.Perm (bar :: rest)
  | [], bar, rest => by simp [hitScanRev]
  | hd :: tl, bar, rest => by
    unfold hitScanRev
    split_ifs with h
    · simp only [Option.some.injEq, Prod.mk.injEq]
      rintro ⟨rfl, rfl⟩
      exact ⟨h, List.Perm.refl _⟩
    · rcases hh : hitScanRev b tl with _ | ⟨hit, rest'⟩
      · simp
      · simp only [Option.some.injEq, Prod.mk.injEq]
        rintro ⟨rfl, rfl⟩
        obtain ⟨hhit, hperm⟩ := hitScanRev_spec b tl hit rest' hh
        exact ⟨hhit, (hperm.cons hd).trans (List.Perm.swap hit hd rest')⟩

/-- A successful bar scan shrinks the store: the remainder is a sublist of
the input. -/
theorem hitScanRev_sublist (b : Bullet) :
    ∀ (l : List Bar) (bar : Bar) (rest : List Bar),
      hitScanRev b l = some (bar, rest) → rest.Sublist l
  | [], bar, rest => by simp [hitScanRev]
  | hd :: tl, bar, rest => by
    unfold hitScanRev
    split_ifs with h
    · simp only [Option.some.injEq, Prod.mk.injEq]
      rintro ⟨rfl, rfl⟩
      exact List.sublist_cons_self hd tl
    · rcases hh : hitScanRev b tl with _ | ⟨hit, rest'⟩
      · simp
      · simp only [Option.some.injEq, Prod.mk.injEq]
        rintro ⟨rfl, rfl⟩
        exact (hitScanRev_sublist b tl hit rest' hh).cons₂ hd

/-- The two clamp conditionals keep `x` within `[0, W - w]` whenever the
sprite fits the field. -/
theorem clampX_bounds (W w x : ℚ) (h : w ≤ W) :
    0 ≤ clampX W w x ∧ clampX W w x ≤ W - w := by
  unfold clampX
  split_ifs <;> constructor <;> linarith

/-- The bar phase leaves the moved player, the timer, the bullet store in
place and never decreases the level. -/
theorem barPhase_pres (W H : ℚ) (kl kr : Bool) (rx rb d : ℚ) (s : GameState) :
    (barPhase W H kl kr rx rb d s).2.player = movePlayer W kl kr s.player ∧
    (barPhase W H kl kr rx rb d s).2.timeLeft = s.timeLeft ∧
    (barPhase W H kl kr rx rb d s).2.bullets = s.bullets ∧
    s.level ≤ (barPhase W H kl kr rx rb d s).2.level := by
  unfold barPhase
  have h := runBars_pres H (movePlayer W kl kr s.player)
    (preBars W rx rb d s).reverse
    { s with player := movePlayer W kl kr s.player, lastSpawn := preLastSpawn d s }
  refine ⟨h.1.trans rfl, h.2.1.trans rfl, h.2.2.1.trans rfl, ?_⟩
  exact le_of_eq rfl |>.trans h.2.2.2.2

/-- The bullet phase changes at most the lives and the two entity
stores. -/
theorem bulletPhase_pres (bp : List Bar × GameState) :
    (bulletPhase bp).status = bp.2.status ∧
    (bulletPhase bp).score = bp.2.score ∧
    (bulletPhase bp).level = bp.2.level ∧
    (bulletPhase bp).player = bp.2.player ∧
    (bulletPhase bp).timeLeft = bp.2.timeLeft := by
  unfold bulletPhase
  have h := runBullets_pres bp.2.bullets.reverse bp.1 bp.2
  exact ⟨h.1, h.2.1, h.2.2.1, h.2.2.2.1, h.2.2.2.2.1⟩

/-- The countdown phase: time-expiry is checked against the decremented
timer, turns the session `lost` and clamps the timer at zero; everything
else is untouched. -/
theorem timePhase_spec (d : ℚ) (s : GameState) :
    (timePhase d s).status =
      (if s.timeLeft - d / 1000 ≤ 0 then Status.lost else s.status) ∧
    (timePhase d s).timeLeft =
      (if s.timeLeft - d / 1000 ≤ 0 then 0 else s.timeLeft - d / 1000) ∧
    (timePhase d s).player = s.player ∧
    (timePhase d s).level = s.level ∧
    (timePhase d s).score = s.score := by
  unfold timePhase
  split_ifs <;> simp

/-- After a tick the player is exactly the moved-and-clamped player. -/
theorem update_player_eq (W H : ℚ) (kl kr : Bool) (rx rb d : ℚ) (s : GameState) :
    (update W H kl kr rx rb d s).player = movePlayer W kl kr s.player := by
  unfold update
  split_ifs with h
  · exact (timePhase_spec d _).2.2.1.trans
      ((bulletPhase_pres _).2.2.2.1.trans (barPhase_pres W H kl kr rx rb d s).1)
  · exact (barPhase_pres W H kl kr rx rb d s).1

/-- A tick never decreases the level. -/
theorem update_level_mono (W H : ℚ) (kl kr : Bool) (rx rb d : ℚ) (s : GameState) :
    s.level ≤ (update W H kl kr rx rb d s).level := by
  unfold update
  split_ifs with h
  · rw [(timePhase_spec d _).2.2.2.1, (bulletPhase_pres _).2.2.1]
    exact (barPhase_pres W H kl kr rx rb d s).2.2.2
  · exact (barPhase_pres W H kl kr rx rb d s).2.2.2

/-! ### The claims -/

/-- C1, counterexample.  The claim says the guards are evaluated in the
fixed priority lives-first order, so a tick in which both `lives ≤ 0` and
`score ≥ winScore` would arise must end Lost, never Won.  In `brinkState`
(lives 1, score 19) a bad bar overlapping the player sits at index 0 and a
good bar overlapping the player at index 1; the reverse-order bar loop
processes the good bar first and the tick ends Won — and with the two bars
swapped the very same tick ends Lost, so the outcome follows processing
order, not a fixed guard priority. -/
theorem c1_priority_counterexample :
    brinkState.lives = 1 ∧
    sampleBadBar ∈ brinkState.bars ∧ sampleBadBar.isBad = true ∧
    overlapsPlayer (fallBar sampleBadBar)
      (movePlayer 800 false false brinkState.player) = true ∧
    overlapsPlayer (fallBar sampleGoodBar)
      (movePlayer 800 false false brinkState.player) = true ∧
    brinkState.score + 1 = winScore ∧
    (update 800 600 false false 0 0 1 brinkState).status = Status.won ∧
    (update 800 600 false false 0 0 1
        { brinkState with bars := [sampleGoodBar, sampleBadBar] }).status =
      Status.lost := by
  refine ⟨rfl, by simp [brinkState], rfl, ?_, ?_, by decide, ?_, ?_⟩ <;>
    norm_num [update, barPhase, bulletPhase, timePhase, preBars, preLastSpawn,
      spawnDue, movePlayer, clampX, runBars, barStep, fallBar, overlapsPlayer,
      spawnIntervalFor, runBullets, bulletStep, hitScanRev, moveBullet,
      bulletHits, winScore, playerSpeed, barSpawnInterval,
      won_ne_running, lost_ne_running, running_eq_running,
      brinkState, samplePlayer, sampleBadBar, sampleGoodBar]

/-- C1, amended.  Terminal transitions are decided inline while the bar
store is processed (in reverse index order, first triggered transition
ending the tick); the time-expiry check `time ≤ 0 → Lost` runs only at the
end of a tick whose bar processing left the session running, the bullet
loop never changes the status, and a tick that ended during bar processing
does not touch the timer. -/
theorem c1_inline_transition_order (W H : ℚ) (kl kr : Bool) (rx rb d : ℚ)
    (s : GameState) :
    (update W H kl kr rx rb d s).status =
      (if (barPhase W H kl kr rx rb d s).2.status = Status.running then
        (if s.timeLeft - d / 1000 ≤ 0 then Status.lost else Status.running)
      else (barPhase W H kl kr rx rb d s).2.status) ∧
    (update W H kl kr rx rb d s).timeLeft =
      (if (barPhase W H kl kr rx rb d s).2.status = Status.running then
        (if s.timeLeft - d / 1000 ≤ 0 then 0 else s.timeLeft - d / 1000)
      else s.timeLeft) := by
  have hbp := bulletPhase_pres (barPhase W H kl kr rx rb d s)
  have htime : (bulletPhase (barPhase W H kl kr rx rb d s)).timeLeft = s.timeLeft :=
    hbp.2.2.2.2.trans (barPhase_pres W H kl kr rx rb d s).2.1
  have htp := timePhase_spec d (bulletPhase (barPhase W H kl kr rx rb d s))
  unfold update
  by_cases h : (barPhase W H kl kr rx rb d s).2.status = Status.running
  · simp only [h, running_eq_running, if_true]
    constructor
    · rw [htp.1, htime, hbp.1, h]
    · rw [htp.2.1, htime]
  · simp only [if_neg h]
    exact ⟨trivial, (barPhase_pres W H kl kr rx rb d s).2.1⟩

/-- C2.  When the bar loop processes a bar that overlaps the player after
falling, the bar is removed; a good bar adds exactly one point and the
session becomes Won exactly when the incremented score reaches the win
threshold, a bad bar costs exactly one life and the session becomes Lost
exactly when the lives reach zero. -/
theorem c2_player_catch_outcomes (H : ℚ) (p : Player) (s : GameState) (bar : Bar)
    (hov : overlapsPlayer (fallBar bar) p = true)
    (hrun : s.status = Status.running)
    (hscore : s.score < winScore) (hlives : 1 ≤ s.lives) :
    (barStep H p s bar).1 = none ∧
    (bar.isBad = false →
      (barStep H p s bar).2.score = s.score + 1 ∧
      (barStep H p s bar).2.lives = s.lives ∧
      ((barStep H p s bar).2.status = Status.won ↔ s.score + 1 = winScore)) ∧
    (bar.isBad = true →
      (barStep H p s bar).2.lives = s.lives - 1 ∧
      (barStep H p s bar).2.score = s.score ∧
      ((barStep H p s bar).2.status = Status.lost ↔ s.lives - 1 = 0)) := by
  by_cases hbad : bar.isBad
  · by_cases hdead : s.lives - 1 ≤ 0
    · refine ⟨by simp [barStep, hov, hbad, hdead],
        fun hg => (Bool.false_ne_true (hg.symm.trans hbad)).elim,
        fun _ => ⟨by simp [barStep, hov, hbad, hdead],
          by simp [barStep, hov, hbad, hdead], ?_⟩⟩
      have hst : (barStep H p s bar).2.status = Status.lost := by
        simp [barStep, hov, hbad, hdead]
      rw [hst]
      exact iff_of_true rfl (by omega)
    · refine ⟨by simp [barStep, hov, hbad, hdead],
        fun hg => (Bool.false_ne_true (hg.symm.trans hbad)).elim,
        fun _ => ⟨by simp [barStep, hov, hbad, hdead],
          by simp [barStep, hov, hbad, hdead], ?_⟩⟩
      have hst : (barStep H p s bar).2.status = s.status := by
        simp [barStep, hov, hbad, hdead]
      rw [hst, hrun]
      exact iff_of_false (by simp) (by omega)
  · have hbad' : bar.isBad = false := Bool.not_eq_true bar.isBad ▸ hbad
    by_cases hwin : winScore ≤ s.score + 1
    · refine ⟨by simp [barStep, hov, hbad', hwin],
        fun _ => ⟨by simp [barStep, hov, hbad', hwin],
          by simp [barStep, hov, hbad', hwin], ?_⟩,
        fun hb => absurd hb hbad⟩
      have hst : (barStep H p s bar).2.status = Status.won := by
        simp [barStep, hov, hbad', hwin]
      rw [hst]
      exact iff_of_true rfl (by omega)
    · by_cases hlev : (s.score + 1) % 5 = 0
      · refine ⟨by simp [barStep, hov, hbad', hwin, hlev],
          fun _ => ⟨by simp [barStep, hov, hbad', hwin, hlev],
            by simp [barStep, hov, hbad', hwin, hlev], ?_⟩,
          fun hb => absurd hb hbad⟩
        have hst : (barStep H p s bar).2.status = s.status := by
          simp [barStep, hov, hbad', hwin, hlev]
        rw [hst, hrun]
        exact iff_of_false (by simp) (by omega)
      · refine ⟨by simp [barStep, hov, hbad', hwin, hlev],
          fun _ => ⟨by simp [barStep, hov, hbad', hwin, hlev],
            by simp [barStep, hov, hbad', hwin, hlev], ?_⟩,
          fun hb => absurd hb hbad⟩
        have hst : (barStep H p s bar).2.status = s.status := by
          simp [barStep, hov, hbad', hwin, hlev]
        rw [hst, hrun]
        exact iff_of_false (by simp) (by omega)

/-- C2 witness: in `brinkState` (score 19, lives 1) catching the good
sample bar scores the twentieth point and wins. -/
theorem c2_player_catch_outcomes_witness :
    (barStep 600 samplePlayer brinkState sampleGoodBar).1 = none ∧
    (barStep 600 samplePlayer brinkState sampleGoodBar).2.score =
      brinkState.score + 1 ∧
    ((barStep 600 samplePlayer brinkState sampleGoodBar).2.status = Status.won ↔
      brinkState.score + 1 = winScore) := by
  have h := c2_player_catch_outcomes 600 samplePlayer brinkState sampleGoodBar
    (by norm_num [overlapsPlayer, fallBar, sampleGoodBar, samplePlayer, brinkState])
    rfl (by decide) (by decide)
  exact ⟨h.1, (h.2.1 rfl).1, (h.2.1 rfl).2.2⟩

/-- C3.  When a moved bullet (still on screen) finds an overlapping bar,
both projectile and bar are removed from their stores; a good bar's
destruction changes nothing else, while a bad bar's destruction grants
exactly one extra life — unconditionally, so with no upper cap. -/
theorem c3_projectile_hit_outcomes (s : GameState) (barsRev : List Bar)
    (bullet : Bullet) (bar : Bar) (rest : List Bar)
    (hon : ¬((moveBullet bullet).y + (moveBullet bullet).height < 0))
    (hhit : hitScanRev (moveBullet bullet) barsRev = some (bar, rest)) :
    (bulletStep s barsRev bullet).1 = none ∧
    (bulletStep s barsRev bullet).2.1 = rest ∧
    barsRev.Perm (bar :: rest) ∧
    bulletHits (moveBullet bullet) bar = true ∧
    (bar.isBad = false → (bulletStep s barsRev bullet).2.2 = s) ∧
    (bar.isBad = true →
      (bulletStep s barsRev bullet).2.2.lives = s.lives + 1 ∧
      (bulletStep s barsRev bullet).2.2.score = s.score ∧
      (bulletStep s barsRev bullet).2.2.level = s.level) := by
  obtain ⟨hb, hperm⟩ := hitScanRev_spec (moveBullet bullet) barsRev bar rest hhit
  refine ⟨by simp [bulletStep, hon, hhit], by simp [bulletStep, hon, hhit],
    hperm, hb, fun hg => by simp [bulletStep, hon, hhit, hg],
    fun hbd => ⟨by simp [bulletStep, hon, hhit, hbd],
      by simp [bulletStep, hon, hhit, hbd], by simp [bulletStep, hon, hhit, hbd]⟩⟩

/-- C3 witness: the sample bullet destroys the sample bad bar, granting a
life. -/
theorem c3_projectile_hit_outcomes_witness :
    (bulletStep earlyState [sampleHitBar] sampleBullet).1 = none ∧
    (bulletStep earlyState [sampleHitBar] sampleBullet).2.1 = [] ∧
    (bulletStep earlyState [sampleHitBar] sampleBullet).2.2.lives =
      earlyState.lives + 1 := by
  have h := c3_projectile_hit_outcomes earlyState [sampleHitBar] sampleBullet
    sampleHitBar []
    (by norm_num [moveBullet, sampleBullet, bulletSpeed])
    (by norm_num [hitScanRev, bulletHits, moveBullet, sampleBullet,
      sampleHitBar, bulletSpeed])
  exact ⟨h.1, h.2.1, (h.2.2.2.2.2 rfl).1⟩

/-- C4.  When the bar loop processes a bar that does not overlap the player
and whose top edge has fallen past the field height, the bar is removed and
one life is lost whatever its good/bad flag, and the session becomes Lost
exactly when the lives reach zero. -/
theorem c4_miss_outcomes (H : ℚ) (p : Player) (s : GameState) (bar : Bar)
    (hnov : overlapsPlayer (fallBar bar) p = false)
    (hbot : (fallBar bar).y > H)
    (hrun : s.status = Status.running) (hlives : 1 ≤ s.lives) :
    (barStep H p s bar).1 = none ∧
    (barStep H p s bar).2.lives = s.lives - 1 ∧
    (barStep H p s bar).2.score = s.score ∧
    ((barStep H p s bar).2.status = Status.lost ↔ s.lives - 1 = 0) := by
  by_cases hdead : s.lives - 1 ≤ 0
  · refine ⟨by simp [barStep, hnov, hbot, hdead],
      by simp [barStep, hnov, hbot, hdead],
      by simp [barStep, hnov, hbot, hdead], ?_⟩
    have hst : (barStep H p s bar).2.status = Status.lost := by
      simp [barStep, hnov, hbot, hdead]
    rw [hst]
    exact iff_of_true rfl (by omega)
  · refine ⟨by simp [barStep, hnov, hbot, hdead],
      by simp [barStep, hnov, hbot, hdead],
      by simp [barStep, hnov, hbot, hdead], ?_⟩
    have hst : (barStep H p s bar).2.status = s.status := by
      simp [barStep, hnov, hbot, hdead]
    rw [hst, hrun]
    exact iff_of_false (by simp) (by omega)

/-- C4 witness: in `brinkState` (lives 1) missing the sample bar at the
bottom of the field loses the last life and the session. -/
theorem c4_miss_outcomes_witness :
    (barStep 600 samplePlayer brinkState sampleMissBar).1 = none ∧
    (barStep 600 samplePlayer brinkState sampleMissBar).2.lives =
      brinkState.lives - 1 ∧
    ((barStep 600 samplePlayer brinkState sampleMissBar).2.status =
      Status.lost ↔ brinkState.lives - 1 = 0) := by
  have h := c4_miss_outcomes 600 samplePlayer brinkState sampleMissBar
    (by norm_num [overlapsPlayer, fallBar, sampleMissBar, samplePlayer, brinkState])
    (by norm_num [fallBar, sampleMissBar]) rfl (by decide)
  exact ⟨h.1, h.2.1, h.2.2.2⟩

/-- One leaderboard insertion always leaves the list sorted descending by
score and at most five entries long, whatever state it starts from. -/
theorem updateHighScores_sorted_capped (e : Entry) (hs : List Entry) :
    List.Sorted scoreGE (updateHighScores e hs) ∧
    (updateHighScores e hs).length ≤ 5 := by
  unfold updateHighScores
  split_ifs with h
  · refine ⟨(List.sorted_insertionSort scoreGE (hs ++ [e])).sublist
      (List.take_sublist 5 _), ?_⟩
    simp [List.length_take]
  · refine ⟨List.sorted_insertionSort scoreGE (hs ++ [e]), ?_⟩
    have := List.length_insertionSort scoreGE (hs ++ [e])
    omega

/-- C6.  After every insertion of a sequence of session results into the
leaderboard — from any starting list — the leaderboard is sorted descending
by score and holds at most 5 entries. -/
theorem c6_leaderboard_sorted_capped (init pre : List Entry) (e : Entry) :
    List.Sorted scoreGE
      (List.foldl (fun acc x => updateHighScores x acc) init (pre ++ [e])) ∧
    (List.foldl (fun acc x => updateHighScores x acc) init (pre ++ [e])).length
      ≤ 5 := by
  rw [List.foldl_append, List.foldl_cons, List.foldl_nil]
  exact updateHighScores_sorted_capped e _

/-- C7.  Each tick accumulates the elapsed time; iff the accumulator
reaches the current spawn interval, exactly one bar is appended (never
more, however large `delta`) and the accumulator resets to zero; the
spawned bar's horizontal position lies in `[0, fieldWidth - barWidth]`,
as the affine image `randX * (fieldWidth - barWidth)` of the uniform
sample `randX ∈ [0, 1)`. -/
theorem c7_spawner_contract (W rx rb delta : ℚ) (s : GameState)
    (h0 : 0 ≤ rx) (h1 : rx < 1) (hW : barWidth ≤ W) :
    (spawnDue delta s = true ↔ s.currentSpawnInterval ≤ s.lastSpawn + delta) ∧
    (spawnDue delta s = true →
      preBars W rx rb delta s = s.bars ++ [spawnBar W s.score rx rb] ∧
      preLastSpawn delta s = 0) ∧
    (spawnDue delta s = false →
      preBars W rx rb delta s = s.bars ∧
      preLastSpawn delta s = s.lastSpawn + delta) ∧
    (preBars W rx rb delta s).length ≤ s.bars.length + 1 ∧
    (spawnBar W s.score rx rb).x = rx * (W - barWidth) ∧
    0 ≤ (spawnBar W s.score rx rb).x ∧
    (spawnBar W s.score rx rb).x ≤ W - barWidth := by
  refine ⟨by simp [spawnDue],
    fun h => ⟨by simp [preBars, h], by simp [preLastSpawn, h]⟩,
    fun h => ⟨by simp [preBars, h], by simp [preLastSpawn, h]⟩, ?_, rfl, ?_, ?_⟩
  · unfold preBars
    split_ifs <;> simp
  · show 0 ≤ rx * (W - barWidth)
    exact mul_nonneg h0 (by linarith)
  · show rx * (W - barWidth) ≤ W - barWidth
    exact mul_le_of_le_one_left (by linarith) h1.le

/-- C7 witness: a 1200 ms tick in `brinkState` (interval 700) triggers one
spawn whose position is within the field. -/
theorem c7_spawner_contract_witness :
    preBars 800 0 0 1200 brinkState =
      brinkState.bars ++ [spawnBar 800 brinkState.score 0 0] ∧
    preLastSpawn 1200 brinkState = 0 ∧
    (preBars 800 0 0 1200 brinkState).length ≤ brinkState.bars.length + 1 ∧
    0 ≤ (spawnBar 800 brinkState.score 0 0).x ∧
    (spawnBar 800 brinkState.score 0 0).x ≤ 800 - barWidth := by
  have h := c7_spawner_contract 800 0 0 1200 brinkState le_rfl (by norm_num)
    (by norm_num [barWidth])
  have hdue : spawnDue 1200 brinkState = true := by
    norm_num [spawnDue, brinkState]
  exact ⟨(h.2.1 hdue).1, (h.2.1 hdue).2, h.2.2.2.1, h.2.2.2.2.2.1, h.2.2.2.2.2.2⟩

/-- C10.  After a tick — and after a `mousemove` — the player's x-position
satisfies `0 ≤ x ≤ fieldWidth - playerWidth` whenever the sprite fits the
field, whatever movement inputs arrive. -/
theorem c10_player_within_bounds (W H : ℚ) (kl kr : Bool) (rx rb d mx : ℚ)
    (s : GameState) (p : Player)
    (hw : s.player.width ≤ W) (hp : p.width ≤ W) :
    (0 ≤ (update W H kl kr rx rb d s).player.x ∧
      (update W H kl kr rx rb d s).player.x ≤ W - s.player.width) ∧
    (0 ≤ (mouseMove W mx p).x ∧ (mouseMove W mx p).x ≤ W - p.width) := by
  constructor
  · rw [update_player_eq]
    exact clampX_bounds W s.player.width
      (s.player.x - (if kl then playerSpeed else 0)
        + (if kr then playerSpeed else 0)) hw
  · exact clampX_bounds W p.width (mx - p.width / 2) hp

/-- C10 witness: a rightward-moving tick and a far-right mouse move in
`brinkState` on an 800-wide field leave the player inside the field. -/
theorem c10_player_within_bounds_witness :
    (0 ≤ (update 800 600 false true 0 0 1 brinkState).player.x ∧
      (update 800 600 false true 0 0 1 brinkState).player.x ≤
        800 - brinkState.player.width) ∧
    (0 ≤ (mouseMove 800 9999 samplePlayer).x ∧
      (mouseMove 800 9999 samplePlayer).x ≤ 800 - samplePlayer.width) :=
  c10_player_within_bounds 800 600 false true 0 0 1 9999 brinkState samplePlayer
    (by norm_num [brinkState, samplePlayer]) (by norm_num [samplePlayer])

/-- C8, counterexample.  The claim asks for a level-up on *every* fifth
point since the last level-up, but the twentieth point (five points past
the level-up at score 15) wins the game before the level check runs: in
`brinkState` (score 19, level 4) the winning catch leaves the level at 4
and the spawn interval untouched. -/
theorem c8_levelup_counterexample :
    brinkState.score = 19 ∧ brinkState.level = 4 ∧
    (brinkState.score + 1) % 5 = 0 ∧
    overlapsPlayer (fallBar sampleGoodBar) samplePlayer = true ∧
    sampleGoodBar.isBad = false ∧
    (barStep 600 samplePlayer brinkState sampleGoodBar).2.score = 20 ∧
    (barStep 600 samplePlayer brinkState sampleGoodBar).2.status = Status.won ∧
    (barStep 600 samplePlayer brinkState sampleGoodBar).2.level = 4 ∧
    (barStep 600 samplePlayer brinkState sampleGoodBar).2.currentSpawnInterval =
      brinkState.currentSpawnInterval := by
  refine ⟨rfl, rfl, by decide, ?_, rfl, ?_, ?_, ?_, ?_⟩ <;>
    norm_num [barStep, overlapsPlayer, fallBar, winScore,
      brinkState, samplePlayer, sampleGoodBar]

/-- C8, amended.  On a good catch that does not reach the win threshold,
the level rises by exactly one when the new score is a multiple of 5 (every
5 points since the last level-up) and the spawn interval is recomputed as
`max(300, 1000 - (level - 1) * 100)` from the new level, and both are
unchanged otherwise; the interval formula is non-increasing in the level
and floored at 300; a tick never decreases the level. -/
theorem c8_level_progression (H : ℚ) (p : Player) (s : GameState) (bar : Bar)
    (hov : overlapsPlayer (fallBar bar) p = true) (hgood : bar.isBad = false)
    (hnw : s.score + 1 < winScore) :
    ((s.score + 1) % 5 = 0 →
      (barStep H p s bar).2.level = s.level + 1 ∧
      (barStep H p s bar).2.currentSpawnInterval = spawnIntervalFor (s.level + 1)) ∧
    ((s.score + 1) % 5 ≠ 0 →
      (barStep H p s bar).2.level = s.level ∧
      (barStep H p s bar).2.currentSpawnInterval = s.currentSpawnInterval) ∧
    (∀ l1 l2 : ℤ, l1 ≤ l2 → spawnIntervalFor l2 ≤ spawnIntervalFor l1) ∧
    (∀ l : ℤ, (300 : ℚ) ≤ spawnIntervalFor l) ∧
    (∀ (W rx rb d : ℚ) (kl kr : Bool),
      s.level ≤ (update W H kl kr rx rb d s).level) := by
  have hwin : ¬(winScore ≤ s.score + 1) := not_le.mpr hnw
  refine ⟨fun hlev => ⟨by simp [barStep, hov, hgood, hwin, hlev],
      by simp [barStep, hov, hgood, hwin, hlev]⟩,
    fun hlev => ⟨by simp [barStep, hov, hgood, hwin, hlev],
      by simp [barStep, hov, hgood, hwin, hlev]⟩, ?_, ?_, ?_⟩
  · intro l1 l2 h12
    unfold spawnIntervalFor
    refine max_le_max le_rfl ?_
    have hc : (l1 : ℚ) ≤ (l2 : ℚ) := by exact_mod_cast h12
    linarith
  · intro l
    exact le_max_left 300 _
  · intro W rx rb d kl kr
    exact update_level_mono W H kl kr rx rb d s

/-- C8 witness: the fifth point in `earlyState` (score 4, level 1) raises
the level to 2 and recomputes the interval to `spawnIntervalFor 2 = 900`. -/
theorem c8_level_progression_witness :
    (barStep 600 samplePlayer earlyState sampleGoodBar).2.level =
      earlyState.level + 1 ∧
    (barStep 600 samplePlayer earlyState sampleGoodBar).2.currentSpawnInterval =
      spawnIntervalFor (earlyState.level + 1) ∧
    spawnIntervalFor 2 = 900 ∧
    spawnIntervalFor 9 ≤ spawnIntervalFor 2 ∧
    (300 : ℚ) ≤ spawnIntervalFor 100 := by
  have h := c8_level_progression 600 samplePlayer earlyState sampleGoodBar
    (by norm_num [overlapsPlayer, fallBar, sampleGoodBar, samplePlayer]) rfl
    (by decide)
  have hlev : (earlyState.score + 1) % 5 = 0 := by decide
  exact ⟨(h.1 hlev).1, (h.1 hlev).2,
    by norm_num [spawnIntervalFor, barSpawnInterval],
    h.2.2.1 2 9 (by norm_num), h.2.2.2.1 100⟩

/-- A bar kept by `barStep` is exactly the moved input bar, and keeping it
changes no state. -/
theorem barStep_kept (H : ℚ) (p : Player) (s : GameState) (bar : Bar) (b : Bar)
    (h : (barStep H p s bar).1 = some b) :
    b = fallBar bar ∧ (barStep H p s bar).2 = s := by
  unfold barStep at h ⊢
  split_ifs at h ⊢
  simp_all

/-- The surviving option of `barStep` is always a sublist of the moved
input bar. -/
theorem barStep_toList_sublist (H : ℚ) (p : Player) (s : GameState) (bar : Bar) :
    (barStep H p s bar).1.toList.Sublist [fallBar bar] := by
  rcases hk : (barStep H p s bar).1 with _ | b
  · simp
  · rw [(barStep_kept H p s bar b hk).1]
    simp

/-- Unfolding equation of `runBars` on a nonempty store. -/
theorem runBars_cons (H : ℚ) (p : Player) (bar : Bar) (lower : List Bar)
    (s : GameState) :
    runBars H p (bar :: lower) s =
      if (barStep H p s bar).2.status = Status.running then
        ((barStep H p s bar).1.toList ++
          (runBars H p lower (barStep H p s bar).2).1,
          (runBars H p lower (barStep H p s bar).2).2)
      else ((barStep H p s bar).1.toList ++ lower, (barStep H p s bar).2) :=
  rfl

/-- The bar loop partitions its input: some prefix of the reverse-ordered
store (all of it when no transition fired) is processed — each processed
bar moved exactly once and then kept or removed, never duplicated — and
the unprocessed suffix is returned untouched. -/
theorem runBars_partition (H : ℚ) (p : Player) :
    ∀ (bars : List Bar) (s : GameState),
      ∃ n, n ≤ bars.length ∧ ∃ kept,
        (runBars H p bars s).1 = kept ++ bars.drop n ∧
        kept.Sublist ((bars.take n).map fallBar) ∧
        ((runBars H p bars s).2.status = Status.running → n = bars.length)
  | [], s => ⟨0, by simp, [], by simp [runBars], by simp, fun _ => rfl⟩
  | bar :: lower, s => by
    by_cases h : (barStep H p s bar).2.status = Status.running
    · obtain ⟨n, hn, kept, hk1, hk2, hk3⟩ :=
        runBars_partition H p lower (barStep H p s bar).2
      refine ⟨n + 1, by simpa using hn, (barStep H p s bar).1.toList ++ kept,
        ?_, ?_, ?_⟩
      · rw [runBars_cons, if_pos h]
        dsimp only
        rw [hk1, List.drop_succ_cons, List.append_assoc]
      · rw [List.take_succ_cons, List.map_cons]
        rcases hk : (barStep H p s bar).1 with _ | b
        · simpa using hk2.cons (fallBar bar)
        · rw [(barStep_kept H p s bar b hk).1]
          simpa using hk2.cons₂ (fallBar bar)
      · rw [runBars_cons, if_pos h]
        dsimp only
        intro hrun
        rw [List.length_cons, hk3 hrun]
    · refine ⟨1, by simp, (barStep H p s bar).1.toList, ?_, ?_, ?_⟩
      · rw [runBars_cons, if_neg h]
        dsimp only
        rw [List.drop_succ_cons, List.drop_zero]
      · rw [List.take_succ_cons, List.take_zero, List.map_cons, List.map_nil]
        exact barStep_toList_sublist H p s bar
      · rw [runBars_cons, if_neg h]
        dsimp only
        intro hrun
        exact absurd hrun h

/-- A bullet kept by `bulletStep` is exactly the moved input bullet. -/
theorem bulletStep_kept (s : GameState) (barsRev : List Bar) (bullet : Bullet)
    (b : Bullet) (h : (bulletStep s barsRev bullet).1 = some b) :
    b = moveBullet bullet := by
  unfold bulletStep at h
  split_ifs at h with hoff
  rcases hh : hitScanRev (moveBullet bullet) barsRev with _ | ⟨hit, rest⟩ <;>
    rw [hh] at h <;> simp_all

/-- One bullet iteration only ever removes bars. -/
theorem bulletStep_bars_sublist (s : GameState) (barsRev : List Bar)
    (bullet : Bullet) : (bulletStep s barsRev bullet).2.1.Sublist barsRev := by
  unfold bulletStep
  split_ifs with hoff
  · exact List.Sublist.refl _
  · rcases hh : hitScanRev (moveBullet bullet) barsRev with _ | ⟨hit, rest⟩
    · simp
    · simpa using hitScanRev_sublist (moveBullet bullet) barsRev hit rest hh

/-- The bullet loop processes every bullet exactly once: the surviving
bullets are (in order) a sub-selection of the moved input bullets. -/
theorem runBullets_bullets_sublist :
    ∀ (bullets : List Bullet) (barsRev : List Bar) (s : GameState),
      (runBullets bullets barsRev s).1.Sublist (bullets.map moveBullet)
  | [], barsRev, s => by simp [runBullets]
  | bullet :: lower, barsRev, s => by
    have ih := runBullets_bullets_sublist lower
      (bulletStep s barsRev bullet).2.1 (bulletStep s barsRev bullet).2.2
    show ((bulletStep s barsRev bullet).1.toList ++ _).Sublist
      (moveBullet bullet :: lower.map moveBullet)
    rcases hk : (bulletStep s barsRev bullet).1 with _ | b
    · simpa using ih.cons (moveBullet bullet)
    · rw [bulletStep_kept s barsRev bullet b hk]
      simpa using ih.cons₂ (moveBullet bullet)

/-- The bullet loop only ever removes bars from the store. -/
theorem runBullets_bars_sublist :
    ∀ (bullets : List Bullet) (barsRev : List Bar) (s : GameState),
      (runBullets bullets barsRev s).2.1.Sublist barsRev
  | [], barsRev, s => by simp [runBullets]
  | bullet :: lower, barsRev, s => by
    have ih := runBullets_bars_sublist lower
      (bulletStep s barsRev bullet).2.1 (bulletStep s barsRev bullet).2.2
    exact ih.trans (bulletStep_bars_sublist s barsRev bullet)

/-- C9.  Within one tick each object receives at most one outcome: the bar
loop, working on the reverse-ordered store, moves each processed bar
exactly once and either keeps or removes it (removal skips no entry and
duplicates none, and a stopped loop leaves the unprocessed suffix
untouched), it processes the whole store whenever no terminal transition
fires, and the bullet loop visits each bullet exactly once while only ever
removing bars — a removed object is never tested again that tick. -/
theorem c9_single_outcome_per_object (H : ℚ) (p : Player) (bars : List Bar)
    (s : GameState) (bullets : List Bullet) (barsRev : List Bar)
    (s2 : GameState) :
    (∃ n, n ≤ bars.length ∧ ∃ kept,
      (runBars H p bars s).1 = kept ++ bars.drop n ∧
      kept.Sublist ((bars.take n).map fallBar) ∧
      ((runBars H p bars s).2.status = Status.running → n = bars.length)) ∧
    (runBullets bullets barsRev s2).1.Sublist (bullets.map moveBullet) ∧
    (runBullets bullets barsRev s2).2.1.Sublist barsRev :=
  ⟨runBars_partition H p bars s,
    runBullets_bullets_sublist bullets barsRev s2,
    runBullets_bars_sublist bullets barsRev s2⟩

/-! ### Storage codec lemmas -/

theorem isDig_dChar (d : ℕ) (h : d < 10) : isDig (dChar d) = true := by
  interval_cases d <;> rfl

theorem dVal_dChar (d : ℕ) (h : d < 10) : dVal (dChar d) = d := by
  interval_cases d <;> rfl

theorem digitsVal_append (xs : List Char) (c : Char) :
    digitsVal (xs ++ [c]) = digitsVal xs * 10 + dVal c := by
  simp [digitsVal, List.foldl_append]

/-- The fuelled decimal rendering yields only digits, is nonempty, and
parses back to its input value. -/
theorem natCharsAux_spec : ∀ (fuel n : ℕ), n < fuel →
    (∀ c ∈ natCharsAux fuel n, isDig c = true) ∧
    natCharsAux fuel n ≠ [] ∧
    digitsVal (natCharsAux fuel n) = n
  | 0, n, h => absurd h (Nat.not_lt_zero n)
  | fuel + 1, n, h => by
    unfold natCharsAux
    by_cases hsmall : n < 10
    · rw [if_pos hsmall]
      refine ⟨?_, by simp, ?_⟩
      · intro c hc
        rw [List.mem_singleton] at hc
        rw [hc]
        exact isDig_dChar n hsmall
      · simp [digitsVal, dVal_dChar n hsmall]
    · rw [if_neg hsmall]
      have hn0 : 0 < n := by omega
      have hdiv_lt : n / 10 < n := Nat.div_lt_self hn0 (by norm_num)
      have hfuel : n / 10 < fuel := by omega
      obtain ⟨hd, hne, hv⟩ := natCharsAux_spec fuel (n / 10) hfuel
      have hmod : n % 10 < 10 := Nat.mod_lt n (by norm_num)
      refine ⟨?_, by simp, ?_⟩
      · intro c hc
        rw [List.mem_append, List.mem_singleton] at hc
        rcases hc with hc | hc
        · exact hd c hc
        · rw [hc]
          exact isDig_dChar _ hmod
      · rw [digitsVal_append, hv, dVal_dChar _ hmod]
        omega

/-- `natChars` yields only digits, is nonempty, and parses back. -/
theorem natChars_spec (n : ℕ) :
    (∀ c ∈ natChars n, isDig c = true) ∧
    natChars n ≠ [] ∧ digitsVal (natChars n) = n :=
  natCharsAux_spec (n + 1) n (Nat.lt_succ_self n)

/-- The digit scan stops exactly at the first non-digit. -/
theorem takeDigits_all : ∀ (ds rest : List Char),
    (∀ c ∈ ds, isDig c = true) →
    (∀ c, rest.head? = some c → isDig c = false) →
    takeDigits (ds ++ rest) = (ds, rest)
  | [], rest, _, h2 => by
    cases rest with
    | nil => rfl
    | cons c cs =>
      have := h2 c rfl
      unfold takeDigits
      simp [this]
  | d :: ds, rest, h1, h2 => by
    have hd : isDig d = true := h1 d (by simp)
    have ih := takeDigits_all ds rest (fun c hc => h1 c (by simp [hc])) h2
    unfold takeDigits
    simp [hd, ih]

/-- Parsing the decimal rendering followed by a non-digit recovers the
value and the remainder. -/
theorem parseNum_natChars (n : ℕ) (rest : List Char)
    (hrest : ∀ c, rest.head? = some c → isDig c = false) :
    parseNum (natChars n ++ rest) = some (n, rest) := by
  obtain ⟨hd, hne, hv⟩ := natChars_spec n
  unfold parseNum
  rw [takeDigits_all (natChars n) rest hd hrest]
  dsimp only
  rw [if_neg hne, hv]

/-- Scanning a quote-free, backslash-free string body consumes it up to
the closing quote. -/
theorem scanName_append : ∀ (nm rest : List Char),
    (∀ c ∈ nm, (c == '"') = false ∧ (c == '\\') = false) →
    scanName (nm ++ '"' :: rest) = some (nm, rest)
  | [], rest, _ => by simp [scanName]
  | c :: nm, rest, h => by
    have hc := h c (by simp)
    have ih := scanName_append nm rest (fun x hx => h x (by simp [hx]))
    unfold scanName
    simp [hc.1, hc.2, ih]

theorem expectChars_append : ∀ (pat rest : List Char),
    expectChars pat (pat ++ rest) = some rest
  | [], _ => rfl
  | p :: ps, rest => by
    unfold expectChars
    simp [expectChars_append ps rest]

/-- Unpack the storable-record predicate. -/
theorem goodEntry_spec (e : Entry) (h : goodEntry e = true) :
    (∀ c ∈ e.name, (c == '"') = false ∧ (c == '\\') = false) ∧ 0 ≤ e.score := by
  unfold goodEntry at h
  rw [Bool.and_eq_true] at h
  refine ⟨fun c hc => ?_, of_decide_eq_true h.2⟩
  have hall := List.all_eq_true.mp h.1 c hc
  rw [Bool.and_eq_true, Bool.not_eq_true', Bool.not_eq_true'] at hall
  exact hall

/-- Round trip for one serialized record followed by arbitrary text. -/
theorem parseRecord_encode (e : Entry) (rest : List Char)
    (hname : ∀ c ∈ e.name, (c == '"') = false ∧ (c == '\\') = false)
    (hscore : 0 ≤ e.score) :
    parseRecord (encodeRecord e ++ rest) = some (e, rest) := by
  have h1 : expectChars namePat (encodeRecord e ++ rest) =
      some (e.name ++ '"' ::
        (scorePat ++ (natChars e.score.toNat ++ rbrace :: rest))) := by
    unfold encodeRecord
    simp only [List.append_assoc, List.cons_append, List.singleton_append]
    exact expectChars_append _ _
  have h2 : scanName (e.name ++ '"' ::
      (scorePat ++ (natChars e.score.toNat ++ rbrace :: rest))) =
      some (e.name, scorePat ++ (natChars e.score.toNat ++ rbrace :: rest)) :=
    scanName_append e.name _ hname
  have h3 : expectChars scorePat
      (scorePat ++ (natChars e.score.toNat ++ rbrace :: rest)) =
      some (natChars e.score.toNat ++ rbrace :: rest) :=
    expectChars_append _ _
  have h4 : parseNum (natChars e.score.toNat ++ rbrace :: rest) =
      some (e.score.toNat, rbrace :: rest) := by
    refine parseNum_natChars _ _ fun c hc => ?_
    rw [List.head?_cons, Option.some.injEq] at hc
    rw [← hc]
    rfl
  unfold parseRecord
  rw [h1]
  dsimp only
  rw [h2]
  dsimp only
  rw [h3]
  dsimp only
  rw [h4]
  simp [Int.toNat_of_nonneg hscore]

/-- Round trip for a nonempty serialized record sequence up to the closing
bracket, for any sufficient fuel. -/
theorem parseItems_encode : ∀ (l : List Entry) (fuel : ℕ) (rest : List Char),
    l ≠ [] → (∀ e ∈ l, goodEntry e = true) → l.length ≤ fuel →
    parseItems fuel (encodeItems l ++ ']' :: rest) = some (l, rest)
  | [], _, _, hne, _, _ => absurd rfl hne
  | [e], fuel, rest, _, hgood, hfuel => by
    obtain ⟨hname, hscore⟩ := goodEntry_spec e (hgood e (by simp))
    cases fuel with
    | zero => exact absurd hfuel (by simp)
    | succ f =>
      have hr := parseRecord_encode e (']' :: rest) hname hscore
      show parseItems (f + 1) (encodeRecord e ++ ']' :: rest) = _
      unfold parseItems
      rw [hr]
      dsimp only
      rw [if_neg (by decide), if_pos rfl]
  | e :: e2 :: es, fuel, rest, _, hgood, hfuel => by
    obtain ⟨hname, hscore⟩ := goodEntry_spec e (hgood e (by simp))
    cases fuel with
    | zero => exact absurd hfuel (by simp)
    | succ f =>
      have ih := parseItems_encode (e2 :: es) f rest (by simp)
        (fun x hx => hgood x (List.mem_cons_of_mem e hx))
        (by simpa using Nat.lt_succ_iff.mp (by simpa using hfuel))
      have hr := parseRecord_encode e
        (',' :: (encodeItems (e2 :: es) ++ ']' :: rest)) hname hscore
      show parseItems (f + 1)
        ((encodeRecord e ++ ',' :: encodeItems (e2 :: es)) ++ ']' :: rest) = _
      rw [List.append_assoc, List.cons_append]
      unfold parseItems
      rw [hr]
      dsimp only
      rw [if_pos rfl, ih]

/-- Every serialized record sequence is at least as long as the record
list itself. -/
theorem encodeItems_length : ∀ l : List Entry, l.length ≤ (encodeItems l).length
  | [] => by simp [encodeItems]
  | [e] => by simp [encodeItems, encodeRecord, namePat]
  | e :: e2 :: es => by
    have ih := encodeItems_length (e2 :: es)
    show (e :: e2 :: es).length ≤
      (encodeRecord e ++ ',' :: encodeItems (e2 :: es)).length
    simp only [List.length_append, List.length_cons, encodeRecord, namePat,
      List.length_nil] at *
    omega

/-- C5 round-trip core: deserializing the serialization of any storable
leaderboard recovers it exactly. -/
theorem parseScores_encode (l : List Entry)
    (hgood : ∀ e ∈ l, goodEntry e = true) :
    parseScores (encodeScores l) = some l := by
  cases l with
  | nil => rfl
  | cons e es =>
    show parseScores ('[' :: (encodeItems (e :: es) ++ [']'])) = _
    have hlen := encodeItems_length (e :: es)
    have hne : encodeItems (e :: es) ++ [']'] ≠ [']'] := by
      intro hcontra
      have := congrArg List.length hcontra
      simp only [List.length_append, List.length_cons, List.length_nil,
        List.length_singleton] at this
      simp only [List.length_cons] at hlen
      omega
    have hfuel : (e :: es).length ≤
        (encodeItems (e :: es) ++ [']']).length + 1 := by
      simp only [List.length_append, List.length_singleton]
      omega
    have hp := parseItems_encode (e :: es)
      ((encodeItems (e :: es) ++ [']']).length + 1) [] (by simp) hgood hfuel
    unfold parseScores
    dsimp only
    rw [if_pos rfl, if_neg hne]
    rw [show encodeItems (e :: es) ++ ']' :: ([] : List Char) =
      encodeItems (e :: es) ++ [']'] from rfl] at hp
    rw [hp]
    rfl

/-- C5.  Loading the persisted leaderboard never fails: any stored text
whose deserialization fails yields the empty leaderboard (the `catch`
branch), and serializing then deserializing any storable leaderboard of at
most five records returns it unchanged. -/
theorem c5_storage_fallback_roundtrip (stored : List Char)
    (hfail : parseScores stored = none)
    (l : List Entry) (hgood : ∀ e ∈ l, goodEntry e = true)
    (_hlen : l.length ≤ 5) :
    loadHighScores (some stored) = [] ∧
    parseScores (encodeScores l) = some l := by
  constructor
  · unfold loadHighScores
    dsimp only
    rw [hfail]
  · exact parseScores_encode l hgood

/-- C5 witness: corrupt text loads as the empty list, and a two-record
leaderboard survives the round trip. -/
theorem c5_storage_fallback_roundtrip_witness :
    loadHighScores (some ['o', 'o', 'p', 's']) = [] ∧
    parseScores (encodeScores
      [{ name := ['T', 'a'], score := 3 }, { name := ['N'], score := 0 }]) =
      some [{ name := ['T', 'a'], score := 3 }, { name := ['N'], score := 0 }] :=
  c5_storage_fallback_roundtrip ['o', 'o', 'p', 's'] rfl
    [{ name := ['T', 'a'], score := 3 }, { name := ['N'], score := 0 }]
    (by decide) (by decide)

end ForgeVapor
